import Mathlib

/-!
Verification of the Keep server's collaborative-list core
(`src/routes/listRoutes.ts` and `src/middleware/authMiddleware.ts`).

The REST handlers are shallowly embedded as pure functions over an explicit
store (a list of `ListDoc` documents, mirroring the Mongo collection).
Every handler follows the source line by line: `List.findOne({listId})`
becomes `findList`, a Mongoose `save` of the mutated document becomes
`saveList` (replace the first document with the same `listId`), and the
JavaScript stable `Array.prototype.sort` by `a.order - b.order` becomes
`List.mergeSort` with the `≤` comparator on `order`.
-/

/-- Collaborator permission enum of the schema: `permission ∈ {view, edit}`. -/
inductive Permission where
  | view
  | edit
deriving DecidableEq, Repr

/-- One entry of `list.collaborators`: `{userId, permission}`. -/
structure Collaborator where
  userId : Nat
  permission : Permission
deriving DecidableEq, Repr

/-- One embedded list item: `{itemId, text, completed, order}`. -/
structure Item where
  itemId : Nat
  text : String
  completed : Bool
  order : Int
deriving DecidableEq, Repr

/-- A `List` document: listId, name, owner, collaborators, items, archived,
pinned, order.  Timestamps are presentation-only and not modelled. -/
structure ListDoc where
  listId : Nat
  name : String
  owner : Nat
  collaborators : List Collaborator
  items : List Item
  archived : Bool
  pinned : Bool
  order : Int
deriving DecidableEq, Repr

/-- A user document, as far as the list routes consult it
(`User.findOne({email})`). -/
structure UserRec where
  uid : Nat
  email : String
deriving DecidableEq, Repr

/-- An HTTP response together with the store after the handler ran:
status code, message of the JSON body (empty for document responses),
and the updated collection. -/
structure Resp where
  status : Nat
  msg : String
  store : List ListDoc
deriving DecidableEq, Repr

/-- `List.findOne({ listId })`: first document with the given listId. -/
def findList (store : List ListDoc) (lid : Nat) : Option ListDoc :=
  store.find? (fun l => l.listId == lid)

/-- `User.findOne({ email })`: first user with the given email. -/
def findUser (users : List UserRec) (email : String) : Option UserRec :=
  users.find? (fun u => u.email == email)

/-- `document.save()`: replace the first document carrying the saved
document's `listId` (the schema declares `listId` unique). -/
def saveList : List ListDoc → ListDoc → List ListDoc
  | [], _ => []
  | l :: rest, l' => if l.listId == l'.listId then l' :: rest else l :: saveList rest l'

/-- `document.deleteOne()`: drop the first document with that `listId`. -/
def deleteListDoc : List ListDoc → Nat → List ListDoc
  | [], _ => []
  | l :: rest, lid => if l.listId == lid then rest else l :: deleteListDoc rest lid

/-- `protectListEditAccess` decision (authMiddleware):
`isOwner || (collaborator && collaborator.permission === 'edit')`,
where `collaborator` is `list.collaborators.find(c => c.userId === userId)`. -/
def editAccess (list : ListDoc) (userId : Nat) : Bool :=
  list.owner == userId ||
    (match list.collaborators.find? (fun c => c.userId == userId) with
     | some c => c.permission == Permission.edit
     | none => false)

/-- PUT `/:listId` (update list name).  `list.name = name || list.name`:
a missing or empty name falls back to the current name. -/
def renameList (store : List ListDoc) (actor lid : Nat) (name : Option String) : Resp :=
  match findList store lid with
  | none => ⟨404, "List not found", store⟩
  | some list =>
    if list.owner != actor then ⟨403, "Not authorized to update this list", store⟩
    else
      let newName := match name with
        | some s => if s == "" then list.name else s
        | none => list.name
      ⟨200, "", saveList store { list with name := newName }⟩

/-- DELETE `/:listId`. -/
def deleteList (store : List ListDoc) (actor lid : Nat) : Resp :=
  match findList store lid with
  | none => ⟨404, "List not found", store⟩
  | some list =>
    if list.owner != actor then ⟨403, "Not authorized to delete this list", store⟩
    else ⟨200, "List removed", deleteListDoc store lid⟩

/-- POST `/:listId/collaborators` (add collaborator by email, owner only,
default permission `view`). -/
def addCollaborator (users : List UserRec) (store : List ListDoc)
    (actor lid : Nat) (email : String) : Resp :=
  match findList store lid with
  | none => ⟨404, "List not found", store⟩
  | some list =>
    if list.owner != actor then ⟨403, "Not authorized to add collaborators", store⟩
    else match findUser users email with
      | none => ⟨404, "User not found", store⟩
      | some u =>
        if list.collaborators.any (fun c => c.userId == u.uid) then
          ⟨400, "User is already a collaborator", store⟩
        else if list.owner == u.uid then
          ⟨400, "Owner cannot be a collaborator", store⟩
        else
          ⟨200, "",
            saveList store
              { list with collaborators := list.collaborators ++ [⟨u.uid, Permission.view⟩] }⟩

/-- DELETE `/:listId/collaborators` (remove collaborator by email, owner
only).  The handler filters the collaborator array unconditionally: there
is no check that the user currently is a collaborator. -/
def removeCollaborator (users : List UserRec) (store : List ListDoc)
    (actor lid : Nat) (email : String) : Resp :=
  match findList store lid with
  | none => ⟨404, "List not found", store⟩
  | some list =>
    if list.owner != actor then ⟨403, "Not authorized to remove collaborators", store⟩
    else match findUser users email with
      | none => ⟨404, "User not found", store⟩
      | some u =>
        ⟨200, "",
          saveList store
            { list with collaborators := list.collaborators.filter (fun c => c.userId != u.uid) }⟩

/-- Mutate the first collaborator with the given userId (the source sets
`collaborator.permission` on the entry returned by `find`). -/
def setPermFirst : List Collaborator → Nat → Permission → List Collaborator
  | [], _, _ => []
  | c :: rest, uidv, p =>
    if c.userId == uidv then { c with permission := p } :: rest
    else c :: setPermFirst rest uidv p

/-- PUT `/:listId/collaborators` (update collaborator permission, owner
only).  The body's `permission` arrives as a raw string and is validated
against `['view', 'edit']`. -/
def updateCollaboratorPermission (users : List UserRec) (store : List ListDoc)
    (actor lid : Nat) (email : String) (permission : String) : Resp :=
  match findList store lid with
  | none => ⟨404, "List not found", store⟩
  | some list =>
    if list.owner != actor then ⟨403, "Not authorized to update permissions", store⟩
    else match findUser users email with
      | none => ⟨404, "User not found", store⟩
      | some u =>
        if !(list.collaborators.any (fun c => c.userId == u.uid)) then
          ⟨404, "User is not a collaborator", store⟩
        else if permission != "view" && permission != "edit" then
          ⟨400, "Invalid permission", store⟩
        else
          let p := if permission == "edit" then Permission.edit else Permission.view
          ⟨200, "", saveList store { list with collaborators := setPermFirst list.collaborators u.uid p }⟩

/-- POST `/:listId/items` (add item), behind `protectListEditAccess`.
The new item gets `text || ''`, `completed: false`,
`order: list.items.length`. -/
def addItem (store : List ListDoc) (actor lid newItemId : Nat) (text : Option String) : Resp :=
  match findList store lid with
  | none => ⟨404, "List not found", store⟩
  | some list =>
    if !(editAccess list actor) then ⟨403, "Not authorized to edit this list", store⟩
    else
      let newItem : Item := ⟨newItemId, text.getD "", false, (list.items.length : Int)⟩
      ⟨201, "", saveList store { list with items := list.items ++ [newItem] }⟩

/-- `if (text !== undefined) item.text = text; if (completed !== undefined)
item.completed = completed` applied to the first item with the given id. -/
def updateItemFields : List Item → Nat → Option String → Option Bool → List Item
  | [], _, _, _ => []
  | it :: rest, iid, t, c =>
    if it.itemId == iid then
      { it with text := t.getD it.text, completed := c.getD it.completed } :: rest
    else it :: updateItemFields rest iid t c

/-- PUT `/:listId/items/:itemId` (update item), behind
`protectListEditAccess`. -/
def updateItem (store : List ListDoc) (actor lid itemId : Nat)
    (text : Option String) (completed : Option Bool) : Resp :=
  match findList store lid with
  | none => ⟨404, "List not found", store⟩
  | some list =>
    if !(editAccess list actor) then ⟨403, "Not authorized to edit this list", store⟩
    else if list.items.any (fun i => i.itemId == itemId) then
      ⟨200, "", saveList store { list with items := updateItemFields list.items itemId text completed }⟩
    else ⟨404, "Item not found", store⟩

/-- DELETE `/:listId/items/:itemId` (delete item), behind
`protectListEditAccess`. -/
def deleteItem (store : List ListDoc) (actor lid itemId : Nat) : Resp :=
  match findList store lid with
  | none => ⟨404, "List not found", store⟩
  | some list =>
    if !(editAccess list actor) then ⟨403, "Not authorized to edit this list", store⟩
    else
      let items' := list.items.filter (fun i => i.itemId != itemId)
      if items'.length == list.items.length then ⟨404, "Item not found", store⟩
      else ⟨200, "", saveList store { list with items := items' }⟩

/-- `item.order = index` on the first item with the given id
(`list.items.find(i => i.itemId === itemId)`). -/
def setOrderFirst : List Item → Nat → Int → List Item
  | [], _, _ => []
  | it :: rest, iid, v =>
    if it.itemId == iid then { it with order := v } :: rest
    else it :: setOrderFirst rest iid v

/-- `itemIds.forEach((itemId, index) => ...)`: assign `order := index` to
the first item matching each id, indices counting up from `k`. -/
def assignOrders : List Item → List Nat → Nat → List Item
  | items, [], _ => items
  | items, iid :: rest, k => assignOrders (setOrderFirst items iid (k : Int)) rest (k + 1)

/-- The JS sort comparator `(a, b) => a.order - b.order` as a boolean
order: ascending by `order`. -/
def itemLe (a b : Item) : Bool := decide (a.order ≤ b.order)

/-- PUT `/:listId/items/reorder`, behind `protectListEditAccess`.
A missing/non-array body is 400; an id outside the list's items is 400;
otherwise named items get `order := index` and the array is re-sorted
stably by `order` (JS `Array.prototype.sort` is stable). -/
def reorderItems (store : List ListDoc) (actor lid : Nat) (itemIds : Option (List Nat)) : Resp :=
  match findList store lid with
  | none => ⟨404, "List not found", store⟩
  | some list =>
    if !(editAccess list actor) then ⟨403, "Not authorized to edit this list", store⟩
    else match itemIds with
      | none => ⟨400, "itemIds must be an array", store⟩
      | some ids =>
        if !(ids.all (fun iid => list.items.any (fun it => it.itemId == iid))) then
          ⟨400, "Invalid itemIds provided", store⟩
        else
          let assigned := assignOrders list.items ids 0
          ⟨200, "", saveList store { list with items := assigned.mergeSort itemLe }⟩

/-- PUT `/:listId/archive` (owner only).
`list.archived = archived !== undefined ? archived : !list.archived`;
if the resulting flag is true all collaborators are removed. -/
def archiveList (store : List ListDoc) (actor lid : Nat) (archived : Option Bool) : Resp :=
  match findList store lid with
  | none => ⟨404, "List not found", store⟩
  | some list =>
    if list.owner != actor then ⟨403, "Not authorized to archive this list", store⟩
    else
      let newArchived := archived.getD (!list.archived)
      ⟨200, "",
        saveList store
          { list with
            archived := newArchived,
            collaborators := if newArchived then [] else list.collaborators }⟩

/-- PUT `/:listId/pin` (owner only).
`list.pinned = pinned !== undefined ? pinned : !list.pinned`. -/
def pinList (store : List ListDoc) (actor lid : Nat) (pinned : Option Bool) : Resp :=
  match findList store lid with
  | none => ⟨404, "List not found", store⟩
  | some list =>
    if list.owner != actor then ⟨403, "Not authorized to pin this list", store⟩
    else ⟨200, "", saveList store { list with pinned := pinned.getD (!list.pinned) }⟩

/-- POST `/` (create list): `name || 'Untitled List'`, empty items,
schema defaults `collaborators: []`, `archived: false`, `pinned: false`,
`order: 0`. -/
def newListDoc (newListId owner : Nat) (name : Option String) : ListDoc :=
  { listId := newListId
    name := match name with
      | some s => if s == "" then "Untitled List" else s
      | none => "Untitled List"
    owner := owner
    collaborators := []
    items := []
    archived := false
    pinned := false
    order := 0 }

/-- 0-based position of an id in a list of ids (position of the first
occurrence; total, returning the length when absent). -/
def posOf : List Nat → Nat → Nat
  | [], _ => 0
  | x :: rest, iid => if x == iid then 0 else posOf rest iid + 1

/-! ### Store lemmas -/

/-- Unfold `findList` on a cons cell whose head matches. -/
theorem findList_cons_pos {x : ListDoc} {rest : List ListDoc} {lid : Nat}
    (h : x.listId = lid) : findList (x :: rest) lid = some x := by
  simp [findList, List.find?_cons_of_pos, h]

/-- Unfold `findList` on a cons cell whose head does not match. -/
theorem findList_cons_neg {x : ListDoc} {rest : List ListDoc} {lid : Nat}
    (h : ¬ x.listId = lid) : findList (x :: rest) lid = findList rest lid := by
  simp only [findList]
  rw [List.find?_cons_of_neg]
  simp [h]

/-- A found document carries the looked-up `listId`. -/
theorem findList_listId {store : List ListDoc} {l : ListDoc} {lid : Nat}
    (h : findList store lid = some l) : l.listId = lid := by
  have := List.find?_some h
  simpa using this

/-- Saving a document whose `listId` is the one just looked up makes the
subsequent lookup return the saved document. -/
theorem findList_saveList : ∀ (store : List ListDoc) (l l' : ListDoc) (lid : Nat),
    findList store lid = some l → l'.listId = l.listId →
    findList (saveList store l') lid = some l'
  | [], l, l', lid => by simp [findList]
  | x :: rest, l, l', lid => by
    intro h hid
    have hlid : l.listId = lid := findList_listId h
    by_cases hx : x.listId = lid
    · rw [findList_cons_pos hx] at h
      rw [Option.some_inj] at h
      have hx' : (x.listId == l'.listId) = true := by simp [hid, hlid, hx, h]
      simp only [saveList, hx', if_true]
      exact findList_cons_pos (by rw [hid, hlid])
    · rw [findList_cons_neg hx] at h
      have hx' : (x.listId == l'.listId) = false := by
        simp [hid, hlid, hx]
      simp only [saveList, hx']
      rw [if_neg (by simp)]
      rw [findList_cons_neg hx]
      exact findList_saveList rest l l' lid h hid

/-- Saving back the very document that was found leaves the store
unchanged. -/
theorem saveList_found : ∀ (store : List ListDoc) (l : ListDoc) (lid : Nat),
    findList store lid = some l → saveList store l = store
  | [], l, lid => by simp [findList, saveList]
  | x :: rest, l, lid => by
    intro h
    have hlid : l.listId = lid := findList_listId h
    by_cases hx : x.listId = lid
    · rw [findList_cons_pos hx] at h
      rw [Option.some_inj] at h
      subst h
      simp [saveList]
    · rw [findList_cons_neg hx] at h
      have hx' : (x.listId == l.listId) = false := by simp [hlid, hx]
      simp only [saveList, hx']
      rw [if_neg (by simp), saveList_found rest l lid h]

/-! ### Claim C7: existence is checked before authorization -/

/-- C7: for every request naming a listId that does not exist in the
store, every list route yields 404 NotFound, regardless of who the actor
is — a missing list never produces an authorization-denied result. -/
theorem c7_missing_list_yields_not_found
    (store : List ListDoc) (users : List UserRec)
    (actor lid nid iid : Nat) (email perm : String) (name text : Option String)
    (completed b : Option Bool) (ids : Option (List Nat))
    (h : findList store lid = none) :
    (renameList store actor lid name).status = 404 ∧
    (deleteList store actor lid).status = 404 ∧
    (addCollaborator users store actor lid email).status = 404 ∧
    (removeCollaborator users store actor lid email).status = 404 ∧
    (updateCollaboratorPermission users store actor lid email perm).status = 404 ∧
    (addItem store actor lid nid text).status = 404 ∧
    (updateItem store actor lid iid text completed).status = 404 ∧
    (deleteItem store actor lid iid).status = 404 ∧
    (reorderItems store actor lid ids).status = 404 ∧
    (archiveList store actor lid b).status = 404 ∧
    (pinList store actor lid b).status = 404 := by
  refine ⟨?_, ?_, ?_, ?_, ?_, ?_, ?_, ?_, ?_, ?_, ?_⟩ <;>
    simp [renameList, deleteList, addCollaborator, removeCollaborator,
      updateCollaboratorPermission, addItem, updateItem, deleteItem,
      reorderItems, archiveList, pinList, h]

/-- Witness for C7 at a concrete input: the empty store holds no list 7,
and every route answers 404 there. -/
theorem c7_missing_list_yields_not_found_witness :
    findList [] 7 = none ∧
    ((renameList [] 1 7 none).status = 404 ∧
     (deleteList [] 1 7).status = 404 ∧
     (addCollaborator [] [] 1 7 "x@y").status = 404 ∧
     (removeCollaborator [] [] 1 7 "x@y").status = 404 ∧
     (updateCollaboratorPermission [] [] 1 7 "x@y" "edit").status = 404 ∧
     (addItem [] 1 7 9 none).status = 404 ∧
     (updateItem [] 1 7 9 none none).status = 404 ∧
     (deleteItem [] 1 7 9).status = 404 ∧
     (reorderItems [] 1 7 none).status = 404 ∧
     (archiveList [] 1 7 none).status = 404 ∧
     (pinList [] 1 7 none).status = 404) :=
  ⟨rfl, c7_missing_list_yields_not_found [] [] 1 7 9 9 "x@y" "edit" none none
    none none none rfl⟩

/-! ### Claim C6: archive/pin set-or-toggle -/

/-- C6: for an owner-issued set-archived or set-pinned request on an
existing list, a boolean body sets the flag to that value and an omitted
body sets it to the negation of the current value (`Option.getD` of the
body at the toggled default). -/
theorem c6_archive_pin_set_or_toggle
    (store : List ListDoc) (actor lid : Nat) (list : ListDoc) (b : Option Bool)
    (hl : findList store lid = some list) (hown : list.owner = actor) :
    (archiveList store actor lid b).status = 200 ∧
    (∃ l', findList (archiveList store actor lid b).store lid = some l' ∧
      l'.archived = b.getD (!list.archived)) ∧
    (pinList store actor lid b).status = 200 ∧
    (∃ l', findList (pinList store actor lid b).store lid = some l' ∧
      l'.pinned = b.getD (!list.pinned)) := by
  have howner : (list.owner != actor) = false := by simp [hown]
  refine ⟨?_, ⟨?_, ?_, ?_⟩, ?_, ⟨?_, ?_, ?_⟩⟩
  · simp [archiveList, hl, howner]
  · exact { list with
      archived := b.getD (!list.archived),
      collaborators := if b.getD (!list.archived) then [] else list.collaborators }
  · simp only [archiveList, hl, howner, Bool.false_eq_true, if_false]
    exact findList_saveList store list _ lid hl rfl
  · rfl
  · simp [pinList, hl, howner]
  · exact { list with pinned := b.getD (!list.pinned) }
  · simp only [pinList, hl, howner, Bool.false_eq_true, if_false]
    exact findList_saveList store list _ lid hl rfl
  · rfl

/-- Witness for C6 at a concrete input: owner 1 toggles the archived flag
of list 5 (body omitted) and sets the pinned flag (body `true`). -/
theorem c6_archive_pin_set_or_toggle_witness :
    (findList [⟨5, "L", 1, [], [], false, false, 0⟩] 5 =
      some ⟨5, "L", 1, [], [], false, false, 0⟩) ∧
    ((archiveList [⟨5, "L", 1, [], [], false, false, 0⟩] 1 5 none).status = 200 ∧
     (∃ l', findList (archiveList [⟨5, "L", 1, [], [], false, false, 0⟩] 1 5 none).store 5 =
        some l' ∧ l'.archived = Option.none.getD (!false)) ∧
     (pinList [⟨5, "L", 1, [], [], false, false, 0⟩] 1 5 none).status = 200 ∧
     (∃ l', findList (pinList [⟨5, "L", 1, [], [], false, false, 0⟩] 1 5 none).store 5 =
        some l' ∧ l'.pinned = Option.none.getD (!false))) :=
  ⟨rfl, c6_archive_pin_set_or_toggle [⟨5, "L", 1, [], [], false, false, 0⟩] 1 5
    ⟨5, "L", 1, [], [], false, false, 0⟩ none rfl rfl⟩

/-! ### Claim C9: add item appends with completed=false and order=length -/

/-- C9: an authorized add-item request on an existing list returns 201 and
appends a new item with `completed := false` and `order` equal to the
number of items before the insertion; all other list fields and the
existing items are unchanged. -/
theorem c9_add_item_appends
    (store : List ListDoc) (actor lid nid : Nat) (list : ListDoc) (text : Option String)
    (hl : findList store lid = some list) (hacc : editAccess list actor = true) :
    (addItem store actor lid nid text).status = 201 ∧
    findList (addItem store actor lid nid text).store lid =
      some { list with
        items := list.items ++ [⟨nid, text.getD "", false, (list.items.length : Int)⟩] } := by
  constructor
  · simp [addItem, hl, hacc]
  · simp only [addItem, hl, hacc, Bool.not_true, Bool.false_eq_true, if_false]
    exact findList_saveList store list _ lid hl rfl

/-- Witness for C9: owner 1 adds item 9 ("Milk") to an empty list; the new
item lands with completed=false and order 0. -/
theorem c9_add_item_appends_witness :
    (findList [⟨5, "G", 1, [], [], false, false, 0⟩] 5 =
      some ⟨5, "G", 1, [], [], false, false, 0⟩) ∧
    editAccess ⟨5, "G", 1, [], [], false, false, 0⟩ 1 = true ∧
    ((addItem [⟨5, "G", 1, [], [], false, false, 0⟩] 1 5 9 (some "Milk")).status = 201 ∧
     findList (addItem [⟨5, "G", 1, [], [], false, false, 0⟩] 1 5 9 (some "Milk")).store 5 =
       some ⟨5, "G", 1, [], [⟨9, "Milk", false, (0 : Int)⟩], false, false, 0⟩) :=
  ⟨rfl, rfl, c9_add_item_appends [⟨5, "G", 1, [], [], false, false, 0⟩] 1 5 9
    ⟨5, "G", 1, [], [], false, false, 0⟩ (some "Milk") rfl rfl⟩

/-! ### Claim C10: falsy rename leaves the name unchanged -/

/-- C10: an owner-issued rename whose body omits the name or carries the
empty string succeeds with 200 and leaves the whole store unchanged: the
falsy name falls back to the current name (`list.name = name || list.name`). -/
theorem c10_falsy_rename_keeps_name
    (store : List ListDoc) (actor lid : Nat) (list : ListDoc) (name : Option String)
    (hl : findList store lid = some list) (hown : list.owner = actor)
    (hname : name = none ∨ name = some "") :
    (renameList store actor lid name).status = 200 ∧
    (renameList store actor lid name).store = store := by
  have howner : (list.owner != actor) = false := by simp [hown]
  have hsame : (renameList store actor lid name) =
      ⟨200, "", saveList store { list with name := list.name }⟩ := by
    rcases hname with h | h <;> subst h <;>
      simp [renameList, hl, howner]
  rw [hsame]
  have : ({ list with name := list.name } : ListDoc) = list := rfl
  rw [this, saveList_found store list lid hl]
  exact ⟨rfl, rfl⟩

/-- Witness for C10: renaming list 5 with an empty-string body returns 200
and changes nothing. -/
theorem c10_falsy_rename_keeps_name_witness :
    (findList [⟨5, "Keep", 1, [], [], false, false, 0⟩] 5 =
      some ⟨5, "Keep", 1, [], [], false, false, 0⟩) ∧
    ((renameList [⟨5, "Keep", 1, [], [], false, false, 0⟩] 1 5 (some "")).status = 200 ∧
     (renameList [⟨5, "Keep", 1, [], [], false, false, 0⟩] 1 5 (some "")).store =
       [⟨5, "Keep", 1, [], [], false, false, 0⟩]) :=
  ⟨rfl, c10_falsy_rename_keeps_name [⟨5, "Keep", 1, [], [], false, false, 0⟩] 1 5
    ⟨5, "Keep", 1, [], [], false, false, 0⟩ (some "") rfl rfl (Or.inr rfl)⟩

/-! ### Claim C8: add-collaborator failure cases and default permission -/

/-- C8: for an owner-issued add-collaborator request on an existing list:
a failed identity lookup yields 404 UserNotFound; a target already in the
collaborator set yields 400 AlreadyCollaborator; a target equal to the
owner (and not already a collaborator) yields 400 OwnerCannotCollaborate;
otherwise the user is appended as a collaborator with default permission
`view`. -/
theorem c8_add_collaborator_cases
    (users : List UserRec) (store : List ListDoc) (actor lid : Nat) (list : ListDoc)
    (email : String)
    (hl : findList store lid = some list) (hown : list.owner = actor) :
    (findUser users email = none →
      (addCollaborator users store actor lid email).status = 404 ∧
      (addCollaborator users store actor lid email).msg = "User not found") ∧
    (∀ u, findUser users email = some u →
      (u.uid ∈ list.collaborators.map Collaborator.userId →
        (addCollaborator users store actor lid email).status = 400 ∧
        (addCollaborator users store actor lid email).msg = "User is already a collaborator" ∧
        (addCollaborator users store actor lid email).store = store) ∧
      (u.uid ∉ list.collaborators.map Collaborator.userId → list.owner = u.uid →
        (addCollaborator users store actor lid email).status = 400 ∧
        (addCollaborator users store actor lid email).msg = "Owner cannot be a collaborator" ∧
        (addCollaborator users store actor lid email).store = store) ∧
      (u.uid ∉ list.collaborators.map Collaborator.userId → list.owner ≠ u.uid →
        (addCollaborator users store actor lid email).status = 200 ∧
        findList (addCollaborator users store actor lid email).store lid =
          some { list with
            collaborators := list.collaborators ++ [⟨u.uid, Permission.view⟩] })) := by
  have howner : (list.owner != actor) = false := by simp [hown]
  constructor
  · intro hu
    constructor <;> simp [addCollaborator, hl, howner, hu]
  · intro u hu
    refine ⟨?_, ?_, ?_⟩
    · intro hin
      have hex : ∃ x ∈ list.collaborators, x.userId = u.uid := by
        obtain ⟨c, hc, hcu⟩ := List.mem_map.mp hin
        exact ⟨c, hc, hcu⟩
      refine ⟨?_, ?_, ?_⟩ <;> simp [addCollaborator, hl, howner, hu, hex]
    · intro hnin howneq
      have hnotex : ¬ ∃ x ∈ list.collaborators, x.userId = u.uid := by
        rintro ⟨c, hc, hcu⟩
        exact hnin (List.mem_map.mpr ⟨c, hc, hcu⟩)
      have hua : u.uid = actor := howneq ▸ hown
      subst hua
      refine ⟨?_, ?_, ?_⟩ <;>
        simp [addCollaborator, hl, howner, hu, hnotex, howneq]
    · intro hnin howneq
      have hnotex : ¬ ∃ x ∈ list.collaborators, x.userId = u.uid := by
        rintro ⟨c, hc, hcu⟩
        exact hnin (List.mem_map.mpr ⟨c, hc, hcu⟩)
      have hob : (list.owner == u.uid) = false := by simp [howneq]
      constructor
      · simp [addCollaborator, hl, howner, hu, hnotex, howneq]
      · have hred : (addCollaborator users store actor lid email) =
            ⟨200, "",
              saveList store
                { list with
                  collaborators := list.collaborators ++ [⟨u.uid, Permission.view⟩] }⟩ := by
          simp [addCollaborator, hl, howner, hu, hnotex, howneq]
        rw [hred]
        exact findList_saveList store list _ lid hl rfl

/-- Witness for C8: owner 1 of list 5 adds user 2 ("u@x"), who is not yet
a collaborator and not the owner; the user is appended with permission
`view`. -/
theorem c8_add_collaborator_cases_witness :
    (findList [⟨5, "L", 1, [], [], false, false, 0⟩] 5 =
      some ⟨5, "L", 1, [], [], false, false, 0⟩) ∧
    (findUser [⟨1, "o@x"⟩, ⟨2, "u@x"⟩] "u@x" = some ⟨2, "u@x"⟩) ∧
    ((addCollaborator [⟨1, "o@x"⟩, ⟨2, "u@x"⟩] [⟨5, "L", 1, [], [], false, false, 0⟩]
        1 5 "u@x").status = 200 ∧
      findList (addCollaborator [⟨1, "o@x"⟩, ⟨2, "u@x"⟩]
        [⟨5, "L", 1, [], [], false, false, 0⟩] 1 5 "u@x").store 5 =
        some ⟨5, "L", 1, [⟨2, Permission.view⟩], [], false, false, 0⟩) := by
  refine ⟨rfl, by decide, ?_⟩
  exact (((c8_add_collaborator_cases [⟨1, "o@x"⟩, ⟨2, "u@x"⟩]
      [⟨5, "L", 1, [], [], false, false, 0⟩] 1 5
      ⟨5, "L", 1, [], [], false, false, 0⟩ "u@x" rfl rfl).2
      ⟨2, "u@x"⟩ (by decide)).2.2) (by decide) (by decide)

/-! ### Claim C3: removing an absent collaborator (corrected) -/

/-- C3 counterexample: owner 1 removes collaborator 2 from list 5 twice.
The first call succeeds (200).  The claim predicts the second call — user
2 is then no longer a collaborator — fails with NotCollaborator (404); the
handler has no such check and answers 200 again, with the list unchanged. -/
theorem c3_counterexample_remove_twice_succeeds :
    (removeCollaborator [⟨1, "o@x"⟩, ⟨2, "u@x"⟩]
      [⟨5, "L", 1, [⟨2, Permission.view⟩], [], false, false, 0⟩] 1 5 "u@x").status = 200 ∧
    (removeCollaborator [⟨1, "o@x"⟩, ⟨2, "u@x"⟩]
      (removeCollaborator [⟨1, "o@x"⟩, ⟨2, "u@x"⟩]
        [⟨5, "L", 1, [⟨2, Permission.view⟩], [], false, false, 0⟩] 1 5 "u@x").store
      1 5 "u@x").status = 200 ∧
    ¬ ((removeCollaborator [⟨1, "o@x"⟩, ⟨2, "u@x"⟩]
      (removeCollaborator [⟨1, "o@x"⟩, ⟨2, "u@x"⟩]
        [⟨5, "L", 1, [⟨2, Permission.view⟩], [], false, false, 0⟩] 1 5 "u@x").store
      1 5 "u@x").status = 404) := by
  refine ⟨rfl, rfl, ?_⟩
  decide

/-- C3 amended: for an owner-issued remove-collaborator request on an
existing list whose target user the identity lookup finds, the handler
always answers 200 and persists the collaborator set filtered of that
user; in particular removing the same collaborator twice succeeds both
times, the second call leaving the store unchanged (there is no
NotCollaborator failure). -/
theorem c3_amended_remove_collaborator_idempotent
    (users : List UserRec) (store : List ListDoc) (actor lid : Nat) (list : ListDoc)
    (email : String) (u : UserRec)
    (hl : findList store lid = some list) (hown : list.owner = actor)
    (hu : findUser users email = some u) :
    (removeCollaborator users store actor lid email).status = 200 ∧
    findList (removeCollaborator users store actor lid email).store lid =
      some { list with
        collaborators := list.collaborators.filter (fun c => c.userId != u.uid) } ∧
    (removeCollaborator users (removeCollaborator users store actor lid email).store
        actor lid email).status = 200 ∧
    (removeCollaborator users (removeCollaborator users store actor lid email).store
        actor lid email).store = (removeCollaborator users store actor lid email).store := by
  have howner : (list.owner != actor) = false := by simp [hown]
  have hred : removeCollaborator users store actor lid email =
      ⟨200, "",
        saveList store
          { list with
            collaborators := list.collaborators.filter (fun c => c.userId != u.uid) }⟩ := by
    simp [removeCollaborator, hl, howner, hu]
  have hfind2 : findList
      (saveList store
        { list with
          collaborators := list.collaborators.filter (fun c => c.userId != u.uid) }) lid =
      some { list with
        collaborators := list.collaborators.filter (fun c => c.userId != u.uid) } :=
    findList_saveList store list _ lid hl rfl
  have hfilt : (list.collaborators.filter (fun c => c.userId != u.uid)).filter
      (fun c => c.userId != u.uid) =
      list.collaborators.filter (fun c => c.userId != u.uid) := by
    rw [List.filter_filter]
    simp
  have hred2 : removeCollaborator users
      (saveList store
        { list with
          collaborators := list.collaborators.filter (fun c => c.userId != u.uid) })
      actor lid email =
      ⟨200, "",
        saveList
          (saveList store
            { list with
              collaborators := list.collaborators.filter (fun c => c.userId != u.uid) })
          { list with
            collaborators := list.collaborators.filter (fun c => c.userId != u.uid) }⟩ := by
    simp [removeCollaborator, hfind2, howner, hu, hfilt]
  refine ⟨by rw [hred], by rw [hred]; exact hfind2, by rw [hred, hred2], ?_⟩
  rw [hred, hred2]
  exact saveList_found _ _ lid hfind2

/-- Witness for the amended C3: owner 1 removes "u@x" (user 2, a current
collaborator) from list 5; both the first and the second removal answer
200 and the second is a no-op. -/
theorem c3_amended_remove_collaborator_idempotent_witness :
    (findList [⟨5, "L", 1, [⟨2, Permission.view⟩], [], false, false, 0⟩] 5 =
      some ⟨5, "L", 1, [⟨2, Permission.view⟩], [], false, false, 0⟩) ∧
    (findUser [⟨1, "o@x"⟩, ⟨2, "u@x"⟩] "u@x" = some ⟨2, "u@x"⟩) ∧
    ((removeCollaborator [⟨1, "o@x"⟩, ⟨2, "u@x"⟩]
        [⟨5, "L", 1, [⟨2, Permission.view⟩], [], false, false, 0⟩] 1 5 "u@x").status = 200 ∧
      findList (removeCollaborator [⟨1, "o@x"⟩, ⟨2, "u@x"⟩]
          [⟨5, "L", 1, [⟨2, Permission.view⟩], [], false, false, 0⟩] 1 5 "u@x").store 5 =
        some { (⟨5, "L", 1, [⟨2, Permission.view⟩], [], false, false, 0⟩ : ListDoc) with
          collaborators :=
            [(⟨2, Permission.view⟩ : Collaborator)].filter (fun c => c.userId != 2) } ∧
      (removeCollaborator [⟨1, "o@x"⟩, ⟨2, "u@x"⟩]
        (removeCollaborator [⟨1, "o@x"⟩, ⟨2, "u@x"⟩]
          [⟨5, "L", 1, [⟨2, Permission.view⟩], [], false, false, 0⟩] 1 5 "u@x").store
        1 5 "u@x").status = 200 ∧
      (removeCollaborator [⟨1, "o@x"⟩, ⟨2, "u@x"⟩]
        (removeCollaborator [⟨1, "o@x"⟩, ⟨2, "u@x"⟩]
          [⟨5, "L", 1, [⟨2, Permission.view⟩], [], false, false, 0⟩] 1 5 "u@x").store
        1 5 "u@x").store =
        (removeCollaborator [⟨1, "o@x"⟩, ⟨2, "u@x"⟩]
          [⟨5, "L", 1, [⟨2, Permission.view⟩], [], false, false, 0⟩] 1 5 "u@x").store) :=
  ⟨rfl, by decide,
    c3_amended_remove_collaborator_idempotent [⟨1, "o@x"⟩, ⟨2, "u@x"⟩]
      [⟨5, "L", 1, [⟨2, Permission.view⟩], [], false, false, 0⟩] 1 5
      ⟨5, "L", 1, [⟨2, Permission.view⟩], [], false, false, 0⟩ "u@x" ⟨2, "u@x"⟩
      rfl rfl (by decide)⟩

/-! ### Claim C1: item mutations gated by edit access -/

/-- C1: on an existing list, an item mutation (add, update, delete or
reorder items) is authorized exactly when the actor is the list's owner or
a collaborator whose permission is `edit`; a view-permission collaborator
or a non-collaborator attempting any of the four mutations is denied with
403. -/
theorem c1_item_mutation_authorization
    (store : List ListDoc) (actor lid nid iid : Nat) (list : ListDoc)
    (text : Option String) (completed : Option Bool) (ids : Option (List Nat))
    (hl : findList store lid = some list)
    (hnd : (list.collaborators.map Collaborator.userId).Nodup) :
    (editAccess list actor = true ↔
      (list.owner = actor ∨
        ∃ c ∈ list.collaborators, c.userId = actor ∧ c.permission = Permission.edit)) ∧
    (editAccess list actor = false →
      (addItem store actor lid nid text).status = 403 ∧
      (updateItem store actor lid iid text completed).status = 403 ∧
      (deleteItem store actor lid iid).status = 403 ∧
      (reorderItems store actor lid ids).status = 403) ∧
    (editAccess list actor = true →
      (addItem store actor lid nid text).status ≠ 403 ∧
      (updateItem store actor lid iid text completed).status ≠ 403 ∧
      (deleteItem store actor lid iid).status ≠ 403 ∧
      (reorderItems store actor lid ids).status ≠ 403) := by
  refine ⟨⟨?_, ?_⟩, ?_, ?_⟩
  · intro h
    simp only [editAccess, Bool.or_eq_true] at h
    rcases h with h | h
    · exact Or.inl (by simpa using h)
    · cases hfind : list.collaborators.find? (fun c => c.userId == actor) with
      | none => rw [hfind] at h; simp at h
      | some c =>
        rw [hfind] at h
        refine Or.inr ⟨c, List.mem_of_find?_eq_some hfind, ?_, ?_⟩
        · have := List.find?_some hfind
          simpa using this
        · simpa using h
  · intro h
    rcases h with howner | ⟨c, hc, hcu, hcp⟩
    · simp [editAccess, howner]
    · cases hfind : list.collaborators.find? (fun x => x.userId == actor) with
      | none =>
        exfalso
        have := List.find?_eq_none.mp hfind c hc
        simp [hcu] at this
      | some c' =>
        have hc'mem := List.mem_of_find?_eq_some hfind
        have hc'u : c'.userId = actor := by
          have := List.find?_some hfind
          simpa using this
        have hcc : c' = c :=
          List.inj_on_of_nodup_map hnd hc'mem hc (by rw [hc'u, hcu])
        subst hcc
        simp [editAccess, hfind, hcp]
  · intro hf
    refine ⟨?_, ?_, ?_, ?_⟩ <;>
      simp [addItem, updateItem, deleteItem, reorderItems, hl, hf]
  · intro ht
    refine ⟨?_, ?_, ?_, ?_⟩
    · simp [addItem, hl, ht]
    · cases hcond : list.items.any (fun i => i.itemId == iid) <;>
        simp [updateItem, hl, ht, hcond]
    · cases hcond : ((list.items.filter (fun i => i.itemId != iid)).length ==
          list.items.length) <;>
        simp [deleteItem, hl, ht, hcond]
    · cases ids with
      | none => simp [reorderItems, hl, ht]
      | some l =>
        cases hcond : l.all (fun x => list.items.any (fun it => it.itemId == x)) <;>
          simp [reorderItems, hl, ht, hcond]

/-- Witness for C1: list 5 is owned by 1 with view-collaborator 2; the
access predicate and the 403 denials hold at this instance for actor 2. -/
theorem c1_item_mutation_authorization_witness :
    (findList [⟨5, "L", 1, [⟨2, Permission.view⟩], [], false, false, 0⟩] 5 =
      some ⟨5, "L", 1, [⟨2, Permission.view⟩], [], false, false, 0⟩) ∧
    ([(⟨2, Permission.view⟩ : Collaborator)].map Collaborator.userId).Nodup ∧
    ((editAccess ⟨5, "L", 1, [⟨2, Permission.view⟩], [], false, false, 0⟩ 2 = true ↔
      ((⟨5, "L", 1, [⟨2, Permission.view⟩], [], false, false, 0⟩ : ListDoc).owner = 2 ∨
        ∃ c ∈ [(⟨2, Permission.view⟩ : Collaborator)],
          c.userId = 2 ∧ c.permission = Permission.edit)) ∧
     (editAccess ⟨5, "L", 1, [⟨2, Permission.view⟩], [], false, false, 0⟩ 2 = false →
       (addItem [⟨5, "L", 1, [⟨2, Permission.view⟩], [], false, false, 0⟩] 2 5 9 none).status = 403 ∧
       (updateItem [⟨5, "L", 1, [⟨2, Permission.view⟩], [], false, false, 0⟩] 2 5 9 none none).status = 403 ∧
       (deleteItem [⟨5, "L", 1, [⟨2, Permission.view⟩], [], false, false, 0⟩] 2 5 9).status = 403 ∧
       (reorderItems [⟨5, "L", 1, [⟨2, Permission.view⟩], [], false, false, 0⟩] 2 5 none).status = 403) ∧
     (editAccess ⟨5, "L", 1, [⟨2, Permission.view⟩], [], false, false, 0⟩ 2 = true →
       (addItem [⟨5, "L", 1, [⟨2, Permission.view⟩], [], false, false, 0⟩] 2 5 9 none).status ≠ 403 ∧
       (updateItem [⟨5, "L", 1, [⟨2, Permission.view⟩], [], false, false, 0⟩] 2 5 9 none none).status ≠ 403 ∧
       (deleteItem [⟨5, "L", 1, [⟨2, Permission.view⟩], [], false, false, 0⟩] 2 5 9).status ≠ 403 ∧
       (reorderItems [⟨5, "L", 1, [⟨2, Permission.view⟩], [], false, false, 0⟩] 2 5 none).status ≠ 403)) :=
  ⟨rfl, by decide,
    c1_item_mutation_authorization [⟨5, "L", 1, [⟨2, Permission.view⟩], [], false, false, 0⟩]
      2 5 9 9 ⟨5, "L", 1, [⟨2, Permission.view⟩], [], false, false, 0⟩
      none none none rfl (by decide)⟩

/-! ### Claim C2 infrastructure: single-list transitions -/

/-- A singleton-store lookup can only return the one document. -/
theorem findList_singleton_eq {l x : ListDoc} {lid : Nat}
    (h : findList [l] lid = some x) : x = l := by
  by_cases hlid : l.listId = lid
  · rw [findList_cons_pos hlid] at h
    exact (Option.some_inj.mp h).symm
  · rw [findList_cons_neg hlid] at h
    simp [findList] at h

/-- Saving into a singleton store replaces the document. -/
theorem saveList_singleton {l : ListDoc} (l' : ListDoc) (h : l'.listId = l.listId) :
    saveList [l] l' = [l'] := by
  simp [saveList, h]

/-- A rename on a single list never touches its archived flag or its
collaborator set. -/
theorem renameList_singleton_shape (l l' : ListDoc) (actor lid : Nat) (name : Option String)
    (h : (renameList [l] actor lid name).store = [l']) :
    l'.archived = l.archived ∧ l'.collaborators = l.collaborators := by
  cases hf : findList [l] lid with
  | none =>
    simp only [renameList, hf] at h
    obtain rfl : l = l' := by simpa using h
    exact ⟨rfl, rfl⟩
  | some x =>
    obtain rfl : x = l := findList_singleton_eq hf
    simp only [renameList, hf] at h
    split at h
    · obtain rfl : x = l' := by simpa using h
      exact ⟨rfl, rfl⟩
    · dsimp only at h
      simp only [saveList, beq_self_eq_true, if_true, List.cons.injEq, and_true] at h
      subst h
      exact ⟨rfl, rfl⟩

/-- A pin toggle on a single list never touches its archived flag or its
collaborator set. -/
theorem pinList_singleton_shape (l l' : ListDoc) (actor lid : Nat) (b : Option Bool)
    (h : (pinList [l] actor lid b).store = [l']) :
    l'.archived = l.archived ∧ l'.collaborators = l.collaborators := by
  cases hf : findList [l] lid with
  | none =>
    simp only [pinList, hf] at h
    obtain rfl : l = l' := by simpa using h
    exact ⟨rfl, rfl⟩
  | some x =>
    obtain rfl : x = l := findList_singleton_eq hf
    simp only [pinList, hf] at h
    split at h
    · obtain rfl : x = l' := by simpa using h
      exact ⟨rfl, rfl⟩
    · dsimp only at h
      simp only [saveList, beq_self_eq_true, if_true, List.cons.injEq, and_true] at h
      subst h
      exact ⟨rfl, rfl⟩

/-- Adding an item to a single list never touches its archived flag or its
collaborator set. -/
theorem addItem_singleton_shape (l l' : ListDoc) (actor lid nid : Nat) (text : Option String)
    (h : (addItem [l] actor lid nid text).store = [l']) :
    l'.archived = l.archived ∧ l'.collaborators = l.collaborators := by
  cases hf : findList [l] lid with
  | none =>
    simp only [addItem, hf] at h
    obtain rfl : l = l' := by simpa using h
    exact ⟨rfl, rfl⟩
  | some x =>
    obtain rfl : x = l := findList_singleton_eq hf
    simp only [addItem, hf] at h
    split at h
    · obtain rfl : x = l' := by simpa using h
      exact ⟨rfl, rfl⟩
    · dsimp only at h
      simp only [saveList, beq_self_eq_true, if_true, List.cons.injEq, and_true] at h
      subst h
      exact ⟨rfl, rfl⟩

/-- Updating an item of a single list never touches its archived flag or
its collaborator set. -/
theorem updateItem_singleton_shape (l l' : ListDoc) (actor lid iid : Nat)
    (text : Option String) (completed : Option Bool)
    (h : (updateItem [l] actor lid iid text completed).store = [l']) :
    l'.archived = l.archived ∧ l'.collaborators = l.collaborators := by
  cases hf : findList [l] lid with
  | none =>
    simp only [updateItem, hf] at h
    obtain rfl : l = l' := by simpa using h
    exact ⟨rfl, rfl⟩
  | some x =>
    obtain rfl : x = l := findList_singleton_eq hf
    simp only [updateItem, hf] at h
    split at h
    · obtain rfl : x = l' := by simpa using h
      exact ⟨rfl, rfl⟩
    · split at h
      · dsimp only at h
        simp only [saveList, beq_self_eq_true, if_true, List.cons.injEq, and_true] at h
        subst h
        exact ⟨rfl, rfl⟩
      · obtain rfl : x = l' := by simpa using h
        exact ⟨rfl, rfl⟩

/-- Deleting an item of a single list never touches its archived flag or
its collaborator set. -/
theorem deleteItem_singleton_shape (l l' : ListDoc) (actor lid iid : Nat)
    (h : (deleteItem [l] actor lid iid).store = [l']) :
    l'.archived = l.archived ∧ l'.collaborators = l.collaborators := by
  cases hf : findList [l] lid with
  | none =>
    simp only [deleteItem, hf] at h
    obtain rfl : l = l' := by simpa using h
    exact ⟨rfl, rfl⟩
  | some x =>
    obtain rfl : x = l := findList_singleton_eq hf
    simp only [deleteItem, hf] at h
    split at h
    · obtain rfl : x = l' := by simpa using h
      exact ⟨rfl, rfl⟩
    · split at h
      · obtain rfl : x = l' := by simpa using h
        exact ⟨rfl, rfl⟩
      · simp only [saveList, beq_self_eq_true, if_true, List.cons.injEq, and_true] at h
        subst h
        exact ⟨rfl, rfl⟩

/-- Reordering the items of a single list never touches its archived flag
or its collaborator set. -/
theorem reorderItems_singleton_shape (l l' : ListDoc) (actor lid : Nat)
    (ids : Option (List Nat))
    (h : (reorderItems [l] actor lid ids).store = [l']) :
    l'.archived = l.archived ∧ l'.collaborators = l.collaborators := by
  cases hf : findList [l] lid with
  | none =>
    simp only [reorderItems, hf] at h
    obtain rfl : l = l' := by simpa using h
    exact ⟨rfl, rfl⟩
  | some x =>
    obtain rfl : x = l := findList_singleton_eq hf
    simp only [reorderItems, hf] at h
    split at h
    · obtain rfl : x = l' := by simpa using h
      exact ⟨rfl, rfl⟩
    · cases ids with
      | none =>
        obtain rfl : x = l' := by simpa using h
        exact ⟨rfl, rfl⟩
      | some l2 =>
        dsimp only at h
        split at h
        · obtain rfl : x = l' := by simpa using h
          exact ⟨rfl, rfl⟩
        · simp only [saveList, beq_self_eq_true, if_true, List.cons.injEq, and_true] at h
          subst h
          exact ⟨rfl, rfl⟩

/-- Removing a collaborator from a single list keeps its archived flag and
cannot make an empty collaborator set non-empty. -/
theorem removeCollaborator_singleton_shape (users : List UserRec) (l l' : ListDoc)
    (actor lid : Nat) (email : String)
    (h : (removeCollaborator users [l] actor lid email).store = [l']) :
    l'.archived = l.archived ∧ (l.collaborators = [] → l'.collaborators = []) := by
  cases hf : findList [l] lid with
  | none =>
    simp only [removeCollaborator, hf] at h
    obtain rfl : l = l' := by simpa using h
    exact ⟨rfl, fun hc => hc⟩
  | some x =>
    obtain rfl : x = l := findList_singleton_eq hf
    simp only [removeCollaborator, hf] at h
    split at h
    · obtain rfl : x = l' := by simpa using h
      exact ⟨rfl, fun hc => hc⟩
    · cases hu : findUser users email with
      | none =>
        rw [hu] at h
        obtain rfl : x = l' := by simpa using h
        exact ⟨rfl, fun hc => hc⟩
      | some u =>
        rw [hu] at h
        dsimp only at h
        simp only [saveList, beq_self_eq_true, if_true, List.cons.injEq, and_true] at h
        subst h
        exact ⟨rfl, fun hc => by simp [hc]⟩

/-- Changing a collaborator's permission on a single list keeps its
archived flag and cannot make an empty collaborator set non-empty. -/
theorem updateCollaboratorPermission_singleton_shape (users : List UserRec) (l l' : ListDoc)
    (actor lid : Nat) (email perm : String)
    (h : (updateCollaboratorPermission users [l] actor lid email perm).store = [l']) :
    l'.archived = l.archived ∧ (l.collaborators = [] → l'.collaborators = []) := by
  cases hf : findList [l] lid with
  | none =>
    simp only [updateCollaboratorPermission, hf] at h
    obtain rfl : l = l' := by simpa using h
    exact ⟨rfl, fun hc => hc⟩
  | some x =>
    obtain rfl : x = l := findList_singleton_eq hf
    simp only [updateCollaboratorPermission, hf] at h
    split at h
    · obtain rfl : x = l' := by simpa using h
      exact ⟨rfl, fun hc => hc⟩
    · cases hu : findUser users email with
      | none =>
        rw [hu] at h
        obtain rfl : x = l' := by simpa using h
        exact ⟨rfl, fun hc => hc⟩
      | some u =>
        rw [hu] at h
        dsimp only at h
        split at h
        · obtain rfl : x = l' := by simpa using h
          exact ⟨rfl, fun hc => hc⟩
        · split at h
          · obtain rfl : x = l' := by simpa using h
            exact ⟨rfl, fun hc => hc⟩
          · simp only [saveList, beq_self_eq_true, if_true, List.cons.injEq, and_true] at h
            subst h
            exact ⟨rfl, fun hc => by simp [hc, setPermFirst]⟩

/-- Archiving or unarchiving a single list preserves the invariant
"archived implies no collaborators": the transition to archived clears
the set, the transition to unarchived leaves the flag false. -/
theorem archiveList_singleton_inv (l l' : ListDoc) (actor lid : Nat) (b : Option Bool)
    (hinv : l.archived = true → l.collaborators = [])
    (h : (archiveList [l] actor lid b).store = [l']) :
    l'.archived = true → l'.collaborators = [] := by
  cases hf : findList [l] lid with
  | none =>
    simp only [archiveList, hf] at h
    obtain rfl : l = l' := by simpa using h
    exact hinv
  | some x =>
    obtain rfl : x = l := findList_singleton_eq hf
    simp only [archiveList, hf] at h
    split at h
    · obtain rfl : x = l' := by simpa using h
      exact hinv
    · dsimp only at h
      simp only [saveList, beq_self_eq_true, if_true, List.cons.injEq, and_true] at h
      subst h
      intro harch
      simp only at harch
      simp [harch]

/-- One mutation of a single list document through any list route except
add-collaborator (the one operation the spec allows to lapse the archive
invariant) and delete-list (which destroys the document): the route runs
on the singleton store `[l]` and leaves `[l']`. -/
inductive Step : ListDoc → ListDoc → Prop where
  | rename (actor lid : Nat) (name : Option String) {l l' : ListDoc} :
      (renameList [l] actor lid name).store = [l'] → Step l l'
  | removeCollab (users : List UserRec) (actor lid : Nat) (email : String) {l l' : ListDoc} :
      (removeCollaborator users [l] actor lid email).store = [l'] → Step l l'
  | updatePerm (users : List UserRec) (actor lid : Nat) (email perm : String) {l l' : ListDoc} :
      (updateCollaboratorPermission users [l] actor lid email perm).store = [l'] → Step l l'
  | addIt (actor lid nid : Nat) (text : Option String) {l l' : ListDoc} :
      (addItem [l] actor lid nid text).store = [l'] → Step l l'
  | updIt (actor lid iid : Nat) (text : Option String) (completed : Option Bool) {l l' : ListDoc} :
      (updateItem [l] actor lid iid text completed).store = [l'] → Step l l'
  | delIt (actor lid iid : Nat) {l l' : ListDoc} :
      (deleteItem [l] actor lid iid).store = [l'] → Step l l'
  | reorder (actor lid : Nat) (ids : Option (List Nat)) {l l' : ListDoc} :
      (reorderItems [l] actor lid ids).store = [l'] → Step l l'
  | archive (actor lid : Nat) (b : Option Bool) {l l' : ListDoc} :
      (archiveList [l] actor lid b).store = [l'] → Step l l'
  | pin (actor lid : Nat) (b : Option Bool) {l l' : ListDoc} :
      (pinList [l] actor lid b).store = [l'] → Step l l'

/-- Every single `Step` preserves "archived implies no collaborators". -/
theorem Step_preserves_inv {l l' : ListDoc}
    (hinv : l.archived = true → l.collaborators = []) (hs : Step l l') :
    l'.archived = true → l'.collaborators = [] := by
  cases hs with
  | rename actor lid name h =>
    obtain ⟨ha, hc⟩ := renameList_singleton_shape _ _ _ _ _ h
    intro harch
    rw [hc]
    exact hinv (by rw [← ha]; exact harch)
  | removeCollab users actor lid email h =>
    obtain ⟨ha, hc⟩ := removeCollaborator_singleton_shape _ _ _ _ _ _ h
    intro harch
    exact hc (hinv (by rw [← ha]; exact harch))
  | updatePerm users actor lid email perm h =>
    obtain ⟨ha, hc⟩ := updateCollaboratorPermission_singleton_shape _ _ _ _ _ _ _ h
    intro harch
    exact hc (hinv (by rw [← ha]; exact harch))
  | addIt actor lid nid text h =>
    obtain ⟨ha, hc⟩ := addItem_singleton_shape _ _ _ _ _ _ h
    intro harch
    rw [hc]
    exact hinv (by rw [← ha]; exact harch)
  | updIt actor lid iid text completed h =>
    obtain ⟨ha, hc⟩ := updateItem_singleton_shape _ _ _ _ _ _ _ h
    intro harch
    rw [hc]
    exact hinv (by rw [← ha]; exact harch)
  | delIt actor lid iid h =>
    obtain ⟨ha, hc⟩ := deleteItem_singleton_shape _ _ _ _ _ h
    intro harch
    rw [hc]
    exact hinv (by rw [← ha]; exact harch)
  | reorder actor lid ids h =>
    obtain ⟨ha, hc⟩ := reorderItems_singleton_shape _ _ _ _ _ h
    intro harch
    rw [hc]
    exact hinv (by rw [← ha]; exact harch)
  | archive actor lid b h =>
    exact archiveList_singleton_inv _ _ _ _ _ hinv h
  | pin actor lid b h =>
    obtain ⟨ha, hc⟩ := pinList_singleton_shape _ _ _ _ _ h
    intro harch
    rw [hc]
    exact hinv (by rw [← ha]; exact harch)

/-! ### Claim C2: archived lists have no collaborators -/

/-- C2: a freshly created list satisfies "archived implies no
collaborators"; an owner-issued archive request clears the collaborator
set exactly when the resulting flag is true and keeps it otherwise (so
unarchiving restores nothing); and the invariant is preserved by every
sequence of list operations other than an explicit add-collaborator. -/
theorem c2_archived_implies_no_collaborators :
    (∀ nid owner name, (newListDoc nid owner name).archived = false ∧
      (newListDoc nid owner name).collaborators = []) ∧
    (∀ (store : List ListDoc) (actor lid : Nat) (b : Option Bool) (list : ListDoc),
      findList store lid = some list → list.owner = actor →
      ∃ l', findList (archiveList store actor lid b).store lid = some l' ∧
        l'.archived = b.getD (!list.archived) ∧
        l'.collaborators = (if b.getD (!list.archived) then [] else list.collaborators)) ∧
    (∀ l l' : ListDoc, (l.archived = true → l.collaborators = []) →
      Relation.ReflTransGen Step l l' →
      (l'.archived = true → l'.collaborators = [])) := by
  refine ⟨fun nid owner name => ⟨rfl, rfl⟩, ?_, ?_⟩
  · intro store actor lid b list hl hown
    have howner : (list.owner != actor) = false := by simp [hown]
    refine ⟨{ list with
        archived := b.getD (!list.archived),
        collaborators := if b.getD (!list.archived) then [] else list.collaborators },
      ?_, rfl, rfl⟩
    simp only [archiveList, hl, howner, Bool.false_eq_true, if_false]
    exact findList_saveList store list _ lid hl rfl
  · intro l l' hinv hsteps
    induction hsteps with
    | refl => exact hinv
    | tail hab hbc ih => exact Step_preserves_inv ih hbc

/-- Witness for C2: the list owned by 1 with one view collaborator
satisfies the invariant, and after the single archive step it is archived
with an empty collaborator set. -/
theorem c2_archived_implies_no_collaborators_witness :
    ((⟨5, "L", 1, [⟨2, Permission.view⟩], [], false, false, 0⟩ : ListDoc).archived = true →
      (⟨5, "L", 1, [⟨2, Permission.view⟩], [], false, false, 0⟩ : ListDoc).collaborators = []) ∧
    ((⟨5, "L", 1, [], [], true, false, 0⟩ : ListDoc).archived = true →
      (⟨5, "L", 1, [], [], true, false, 0⟩ : ListDoc).collaborators = []) :=
  ⟨by decide,
    c2_archived_implies_no_collaborators.2.2
      ⟨5, "L", 1, [⟨2, Permission.view⟩], [], false, false, 0⟩
      ⟨5, "L", 1, [], [], true, false, 0⟩ (by decide)
      (Relation.ReflTransGen.single (Step.archive 1 5 (some true) (by decide)))⟩

/-! ### Reorder infrastructure: the assignment pass -/

/-- Assigning an order never changes the sequence of item ids. -/
theorem setOrderFirst_map_itemId (items : List Item) (iid : Nat) (v : Int) :
    (setOrderFirst items iid v).map (fun it => it.itemId) =
      items.map (fun it => it.itemId) := by
  induction items with
  | nil => rfl
  | cons it rest ih =>
    by_cases hx : it.itemId = iid
    · simp [setOrderFirst, hx]
    · simp [setOrderFirst, hx, ih]

/-- On items with nodup ids, mutating the first match equals mapping the
conditional update over all items. -/
theorem setOrderFirst_eq_map (items : List Item) (iid : Nat) (v : Int)
    (h : (items.map (fun it => it.itemId)).Nodup) :
    setOrderFirst items iid v =
      items.map (fun it => if it.itemId = iid then { it with order := v } else it) := by
  induction items with
  | nil => rfl
  | cons it rest ih =>
    simp only [List.map_cons, List.nodup_cons] at h
    obtain ⟨hnotin, hrest⟩ := h
    by_cases hx : it.itemId = iid
    · have htail : rest.map
          (fun it2 => if it2.itemId = iid then { it2 with order := v } else it2) = rest := by
        have : ∀ it2 ∈ rest,
            (if it2.itemId = iid then { it2 with order := v } else it2) = it2 := by
          intro it2 hit2
          rw [if_neg]
          intro he
          exact hnotin (by rw [hx, ← he]; exact List.mem_map_of_mem _ hit2)
        rw [List.map_congr_left this]
        simp
      simp [setOrderFirst, hx, htail]
    · simp [setOrderFirst, hx, ih hrest]

/-- `posOf` at the head. -/
theorem posOf_cons_self (iid : Nat) (rest : List Nat) : posOf (iid :: rest) iid = 0 := by
  simp [posOf]

/-- `posOf` behind a non-matching head. -/
theorem posOf_cons_ne (x a : Nat) (rest : List Nat) (h : ¬ x = a) :
    posOf (x :: rest) a = posOf rest a + 1 := by
  simp [posOf, h]

/-- Characterization of the forEach-with-index assignment pass of the
reorder handler: with nodup item ids and nodup requested ids, each named
item gets `order := k + (its position)` and every other item is
untouched. -/
theorem assignOrders_eq_map : ∀ (ids : List Nat) (items : List Item) (k : Nat),
    (items.map (fun it => it.itemId)).Nodup → ids.Nodup →
    assignOrders items ids k =
      items.map (fun it =>
        if it.itemId ∈ ids then
          { it with order := ((k + posOf ids it.itemId : Nat) : Int) }
        else it)
  | [], items, k => by
    intro hni hnd
    simp [assignOrders]
  | iid :: rest, items, k => by
    intro hni hnd
    simp only [List.nodup_cons] at hnd
    obtain ⟨hiid, hrest⟩ := hnd
    have hni' : ((setOrderFirst items iid (k : Int)).map (fun it => it.itemId)).Nodup := by
      rw [setOrderFirst_map_itemId]
      exact hni
    have ih := assignOrders_eq_map rest (setOrderFirst items iid (k : Int)) (k + 1) hni' hrest
    rw [assignOrders, ih, setOrderFirst_eq_map items iid _ hni, List.map_map]
    apply List.map_congr_left
    intro it hit
    simp only [Function.comp]
    by_cases hx : it.itemId = iid
    · rw [if_pos hx]
      have h1 : ({ it with order := (k : Int) } : Item).itemId = it.itemId := rfl
      rw [if_neg (by rw [h1, hx]; exact hiid)]
      rw [if_pos (by rw [hx]; exact List.mem_cons_self iid rest)]
      rw [hx, posOf_cons_self]
      simp
    · rw [if_neg hx]
      by_cases hmem : it.itemId ∈ rest
      · rw [if_pos hmem, if_pos (List.mem_cons_of_mem _ hmem)]
        rw [posOf_cons_ne iid it.itemId rest (fun he => hx he.symm)]
        congr 1
        push_cast
        omega
      · rw [if_neg hmem]
        rw [if_neg (by
          intro hc
          rcases List.mem_cons.mp hc with hc1 | hc2
          · exact hx hc1
          · exact hmem hc2)]

/-- The item comparator is transitive. -/
theorem itemLe_trans : ∀ (a b c : Item), itemLe a b → itemLe b c → itemLe a c := by
  intro a b c h1 h2
  simp only [itemLe, decide_eq_true_eq] at h1 h2 ⊢
  omega

/-- The item comparator is total. -/
theorem itemLe_total : ∀ (a b : Item), itemLe a b || itemLe b a := by
  intro a b
  simp only [itemLe, Bool.or_eq_true, decide_eq_true_eq]
  exact Int.le_total _ _

/-- The conditional-update map of the assignment pass drops out of a
filter that keeps exactly the unnamed items. -/
theorem filter_unnamed_map (items : List Item) (ids : List Nat) (g : Item → Int) :
    (items.map (fun it =>
      if it.itemId ∈ ids then { it with order := g it } else it)).filter
        (fun it => decide (it.itemId ∉ ids)) =
      items.filter (fun it => decide (it.itemId ∉ ids)) := by
  induction items with
  | nil => rfl
  | cons it rest ih =>
    by_cases hmem : it.itemId ∈ ids
    · simp only [List.map_cons, if_pos hmem]
      rw [List.filter_cons_of_neg (by simp [hmem]), List.filter_cons_of_neg (by simp [hmem])]
      exact ih
    · simp only [List.map_cons, if_neg hmem]
      rw [List.filter_cons_of_pos (by simp [hmem]), List.filter_cons_of_pos (by simp [hmem])]
      rw [ih]

/-- Filtering twice with the same predicate filters once. -/
theorem filter_idem (p : Item → Bool) (l : List Item) :
    (l.filter p).filter p = l.filter p := by
  rw [List.filter_eq_self]
  intro a ha
  exact List.of_mem_filter ha

/-! ### Claim C4: partial reorders are stable -/

/-- C4 (amended): for an authorized reorder whose requested ids form a
nodup strict non-empty subset of the list's (unique) item ids, **provided
the prior persisted item sequence is sorted by `order`**, the call
succeeds and persists a sequence in which every named item carries
`order` equal to its 0-based position in the request, the unnamed items
are exactly the prior unnamed subsequence — same `order` values
(duplicates and gaps preserved) and same relative order — and the whole
sequence is sorted by `order` (the stable re-sort).  The sortedness
precondition is required: deleting items and then adding new ones leaves
a persisted sequence that is not sorted by `order`, and there the stable
re-sort moves unnamed items past one another, so the unamended claim
fails (see the C4 counterexample below). -/
theorem c4_partial_reorder_stable
    (store : List ListDoc) (actor lid : Nat) (list : ListDoc) (ids : List Nat)
    (hl : findList store lid = some list)
    (hacc : editAccess list actor = true)
    (hni : (list.items.map (fun it => it.itemId)).Nodup)
    (hnd : ids.Nodup)
    (hsub : ∀ iid ∈ ids, iid ∈ list.items.map (fun it => it.itemId))
    (hne : ids ≠ [])
    (hstrict : ∃ it ∈ list.items, it.itemId ∉ ids)
    (hsorted : list.items.Pairwise (fun a b => a.order ≤ b.order)) :
    (reorderItems store actor lid (some ids)).status = 200 ∧
    ∃ l', findList (reorderItems store actor lid (some ids)).store lid = some l' ∧
      (∀ it0 ∈ list.items, it0.itemId ∈ ids →
        ({ it0 with order := ((posOf ids it0.itemId : Nat) : Int) } : Item) ∈ l'.items) ∧
      (∀ it ∈ l'.items, it.itemId ∈ ids →
        it.order = ((posOf ids it.itemId : Nat) : Int)) ∧
      l'.items.filter (fun it => decide (it.itemId ∉ ids)) =
        list.items.filter (fun it => decide (it.itemId ∉ ids)) ∧
      l'.items.Pairwise (fun a b => a.order ≤ b.order) := by
  have hall : (ids.all (fun iid => list.items.any (fun it => it.itemId == iid))) = true := by
    rw [List.all_eq_true]
    intro iid hiid
    rw [List.any_eq_true]
    obtain ⟨it, hit, heq⟩ := List.mem_map.mp (hsub iid hiid)
    exact ⟨it, hit, by simp [heq]⟩
  have hred : reorderItems store actor lid (some ids) =
      ⟨200, "", saveList store
        { list with items := (assignOrders list.items ids 0).mergeSort itemLe }⟩ := by
    simp [reorderItems, hl, hacc, hall]
  have hchar : assignOrders list.items ids 0 =
      list.items.map (fun it => if it.itemId ∈ ids then
        { it with order := ((posOf ids it.itemId : Nat) : Int) } else it) := by
    have h0 := assignOrders_eq_map ids list.items 0 hni hnd
    simp only [Nat.zero_add] at h0
    exact h0
  refine ⟨by rw [hred], ?_⟩
  refine ⟨{ list with items := (assignOrders list.items ids 0).mergeSort itemLe },
    ?_, ?_, ?_, ?_, ?_⟩
  · rw [hred]
    exact findList_saveList store list _ lid hl rfl
  · intro it0 hit0 hmem
    show _ ∈ (assignOrders list.items ids 0).mergeSort itemLe
    rw [List.mem_mergeSort, hchar]
    have hf : (if it0.itemId ∈ ids then
        { it0 with order := ((posOf ids it0.itemId : Nat) : Int) } else it0) =
        { it0 with order := ((posOf ids it0.itemId : Nat) : Int) } := if_pos hmem
    rw [← hf]
    exact List.mem_map_of_mem _ hit0
  · intro it hit hmem
    have hit' : it ∈ (assignOrders list.items ids 0).mergeSort itemLe := hit
    rw [List.mem_mergeSort, hchar] at hit'
    obtain ⟨it0, hit0, heq⟩ := List.mem_map.mp hit'
    by_cases hm0 : it0.itemId ∈ ids
    · rw [if_pos hm0] at heq
      rw [← heq]
    · rw [if_neg hm0] at heq
      rw [← heq] at hmem
      exact absurd hmem hm0
  · show ((assignOrders list.items ids 0).mergeSort itemLe).filter _ = _
    have hfa : (assignOrders list.items ids 0).filter (fun it => decide (it.itemId ∉ ids)) =
        list.items.filter (fun it => decide (it.itemId ∉ ids)) := by
      rw [hchar]
      exact filter_unnamed_map list.items ids _
    have hpf : (list.items.filter (fun it => decide (it.itemId ∉ ids))).Pairwise
        (fun a b => itemLe a b = true) := by
      have h1 : (list.items.filter (fun it => decide (it.itemId ∉ ids))).Pairwise
          (fun a b : Item => a.order ≤ b.order) :=
        List.Pairwise.sublist (List.filter_sublist _) hsorted
      exact h1.imp (fun hab => by simpa [itemLe] using hab)
    have hsub2 : List.Sublist
        ((assignOrders list.items ids 0).filter (fun it => decide (it.itemId ∉ ids)))
        ((assignOrders list.items ids 0).mergeSort itemLe) := by
      apply List.sublist_mergeSort itemLe_trans itemLe_total
      · rw [hfa]
        exact hpf
      · exact List.filter_sublist _
    have hperm : List.Perm
        (((assignOrders list.items ids 0).mergeSort itemLe).filter
          (fun it => decide (it.itemId ∉ ids)))
        ((assignOrders list.items ids 0).filter (fun it => decide (it.itemId ∉ ids))) :=
      (List.mergeSort_perm _ _).filter _
    have hsub3 : List.Sublist
        ((assignOrders list.items ids 0).filter (fun it => decide (it.itemId ∉ ids)))
        (((assignOrders list.items ids 0).mergeSort itemLe).filter
          (fun it => decide (it.itemId ∉ ids))) := by
      have h2 := List.Sublist.filter (fun it => decide (it.itemId ∉ ids)) hsub2
      rwa [filter_idem] at h2
    have heq2 := hsub3.eq_of_length hperm.length_eq.symm
    rw [← heq2, hfa]
  · show (((assignOrders list.items ids 0).mergeSort itemLe)).Pairwise _
    have h := List.sorted_mergeSort itemLe_trans itemLe_total (assignOrders list.items ids 0)
    exact h.imp (fun hab => by simpa [itemLe] using hab)

/-- Three items with ids 10, 11, 12 at orders 0, 1, 2. -/
def itemsW : List Item := [⟨10, "a", false, 0⟩, ⟨11, "b", false, 1⟩, ⟨12, "c", false, 2⟩]

/-- A list owned by user 1 holding `itemsW`. -/
def listW : ListDoc := ⟨5, "L", 1, [], itemsW, false, false, 0⟩

/-- A one-list store holding `listW`. -/
def storeW : List ListDoc := [listW]

/-- Witness for C4: the owner reorders only item 12 to the front of the
three-item list; the conclusion holds at this concrete input. -/
theorem c4_partial_reorder_stable_witness :
    (findList storeW 5 = some listW ∧
     editAccess listW 1 = true ∧
     (listW.items.map (fun it => it.itemId)).Nodup ∧
     ([12] : List Nat).Nodup ∧
     (∀ iid ∈ ([12] : List Nat), iid ∈ listW.items.map (fun it => it.itemId)) ∧
     ([12] : List Nat) ≠ [] ∧
     (∃ it ∈ listW.items, it.itemId ∉ ([12] : List Nat)) ∧
     listW.items.Pairwise (fun a b => a.order ≤ b.order)) ∧
    ((reorderItems storeW 1 5 (some [12])).status = 200 ∧
     ∃ l', findList (reorderItems storeW 1 5 (some [12])).store 5 = some l' ∧
       (∀ it0 ∈ listW.items, it0.itemId ∈ ([12] : List Nat) →
         ({ it0 with order := ((posOf [12] it0.itemId : Nat) : Int) } : Item) ∈ l'.items) ∧
       (∀ it ∈ l'.items, it.itemId ∈ ([12] : List Nat) →
         it.order = ((posOf [12] it.itemId : Nat) : Int)) ∧
       l'.items.filter (fun it => decide (it.itemId ∉ ([12] : List Nat))) =
         listW.items.filter (fun it => decide (it.itemId ∉ ([12] : List Nat))) ∧
       l'.items.Pairwise (fun a b => a.order ≤ b.order)) :=
  ⟨⟨by decide, by decide, by decide, by decide, by decide, by decide, by decide, by decide⟩,
    c4_partial_reorder_stable storeW 1 5 listW [12] (by decide) (by decide) (by decide)
      (by decide) (by decide) (by decide) (by decide) (by decide)⟩

/-! ### Claim C5 infrastructure: full-permutation reorders -/

/-- `posOf` of a member is within bounds. -/
theorem posOf_lt_length : ∀ (ids : List Nat) (a : Nat), a ∈ ids → posOf ids a < ids.length
  | [], a => by intro h; cases h
  | x :: rest, a => by
    intro h
    by_cases hx : x = a
    · simp [posOf, hx]
    · rw [posOf_cons_ne x a rest hx]
      have ha : a ∈ rest := by
        rcases List.mem_cons.mp h with h1 | h1
        · exact absurd h1.symm hx
        · exact h1
      have := posOf_lt_length rest a ha
      simp only [List.length_cons]
      omega

/-- On a nodup id list, `posOf` inverts indexing. -/
theorem posOf_get : ∀ (ids : List Nat), ids.Nodup →
    ∀ (i : Fin ids.length), posOf ids (ids.get i) = i
  | [], _, i => absurd i.isLt (by simp)
  | x :: rest, hnd, ⟨0, hi⟩ => by
    simp [posOf]
  | x :: rest, hnd, ⟨i + 1, hi⟩ => by
    simp only [List.nodup_cons] at hnd
    obtain ⟨hx, hrest⟩ := hnd
    have hi2 : i < rest.length := by
      simp only [List.length_cons] at hi
      omega
    have hget : (x :: rest).get ⟨i + 1, hi⟩ = rest.get ⟨i, hi2⟩ := rfl
    rw [hget]
    have hmem : rest.get ⟨i, hi2⟩ ∈ rest := List.get_mem rest i hi2
    rw [posOf_cons_ne x _ rest (fun he => hx (he ▸ hmem))]
    rw [posOf_get rest hrest ⟨i, hi2⟩]

/-- On items with nodup ids, the find-by-id of a member's id returns that
member. -/
theorem find?_itemId_self : ∀ (items : List Item),
    (items.map (fun it => it.itemId)).Nodup →
    ∀ it ∈ items, items.find? (fun x => x.itemId == it.itemId) = some it
  | [], _, it => by intro h; cases h
  | y :: rest, hnd, it => by
    intro h
    simp only [List.map_cons, List.nodup_cons] at hnd
    obtain ⟨hy, hrest⟩ := hnd
    rcases List.mem_cons.mp h with h1 | h1
    · subst h1
      rw [List.find?_cons_of_pos _ (by simp)]
    · have hne2 : (y.itemId == it.itemId) = false := by
        rw [beq_eq_false_iff_ne]
        intro hc
        exact hy (by rw [hc]; exact List.mem_map_of_mem _ h1)
      have hstep : List.find? (fun x => x.itemId == it.itemId) (y :: rest) =
          List.find? (fun x => x.itemId == it.itemId) rest := by
        simp only [List.find?_cons, hne2]
      rw [hstep]
      exact find?_itemId_self rest hrest it h1

/-- The sequence a full-permutation reorder must produce: for each id in
request order, the list's item with that id carrying `order :=` its
position (an absent id — impossible under the coverage hypothesis —
contributes a placeholder carrying the same id and order). -/
def expectedItems (items : List Item) (ids : List Nat) : List Item :=
  ids.map (fun iid =>
    match items.find? (fun it => it.itemId == iid) with
    | some it => { it with order := ((posOf ids iid : Nat) : Int) }
    | none => ⟨iid, "", false, ((posOf ids iid : Nat) : Int)⟩)

/-- The expected sequence lists the requested ids in request order. -/
theorem expectedItems_map_itemId (items : List Item) (ids : List Nat) :
    (expectedItems items ids).map (fun it => it.itemId) = ids := by
  unfold expectedItems
  rw [List.map_map]
  have : ∀ iid ∈ ids, ((fun it => it.itemId) ∘ (fun iid => match items.find? (fun it => it.itemId == iid) with
      | some it => { it with order := ((posOf ids iid : Nat) : Int) }
      | none => (⟨iid, "", false, ((posOf ids iid : Nat) : Int)⟩ : Item))) iid = id iid := by
    intro iid hiid
    simp only [Function.comp, id]
    cases hfind : items.find? (fun it => it.itemId == iid) with
    | none => rfl
    | some it =>
      have := List.find?_some hfind
      simpa using this
  rw [List.map_congr_left this, List.map_id]

/-- The expected sequence carries orders `posOf` of its ids. -/
theorem expectedItems_map_order (items : List Item) (ids : List Nat) :
    (expectedItems items ids).map (fun it => it.order) =
      ids.map (fun iid => ((posOf ids iid : Nat) : Int)) := by
  unfold expectedItems
  rw [List.map_map]
  apply List.map_congr_left
  intro iid hiid
  simp only [Function.comp]
  cases hfind : items.find? (fun it => it.itemId == iid) with
  | none => rfl
  | some it => rfl

/-- On a nodup id list the positions read off in order are `0, 1, …`. -/
theorem map_posOf_self (ids : List Nat) (hnd : ids.Nodup) :
    ids.map (fun iid => ((posOf ids iid : Nat) : Int)) =
      (List.range ids.length).map (fun n : Nat => (n : Int)) := by
  apply List.ext_getElem
  · simp
  · intro i h1 h2
    simp only [List.getElem_map, List.getElem_range]
    have hi : i < ids.length := by simpa using h1
    rw [show ids[i] = ids.get ⟨i, hi⟩ from (List.get_eq_getElem ids ⟨i, hi⟩).symm]
    rw [posOf_get ids hnd ⟨i, hi⟩]

/-- Two lists that are permutations of one another and both strictly
sorted by `order` are equal. -/
theorem perm_pairwise_lt_eq : ∀ (l₁ l₂ : List Item), List.Perm l₁ l₂ →
    l₁.Pairwise (fun a b => a.order < b.order) →
    l₂.Pairwise (fun a b => a.order < b.order) → l₁ = l₂
  | [], l₂, hp, _, _ => (hp.symm.eq_nil).symm
  | a :: t₁, [], hp, _, _ => by
    have := hp.eq_nil
    cases this
  | a :: t₁, b :: t₂, hp, h₁, h₂ => by
    by_cases hab : a = b
    · subst hab
      have hpt := hp.cons_inv
      rw [perm_pairwise_lt_eq t₁ t₂ hpt (List.pairwise_cons.mp h₁).2
        (List.pairwise_cons.mp h₂).2]
    · exfalso
      have ha2 : a ∈ b :: t₂ := hp.subset (List.mem_cons_self _ _)
      have hb1 : b ∈ a :: t₁ := hp.symm.subset (List.mem_cons_self _ _)
      have hat2 : a ∈ t₂ := by
        rcases List.mem_cons.mp ha2 with h | h
        · exact absurd h hab
        · exact h
      have hbt1 : b ∈ t₁ := by
        rcases List.mem_cons.mp hb1 with h | h
        · exact absurd h.symm hab
        · exact h
      have hlt1 : a.order < b.order := (List.pairwise_cons.mp h₁).1 b hbt1
      have hlt2 : b.order < a.order := (List.pairwise_cons.mp h₂).1 a hat2
      omega

/-! ### Claim C5: full-permutation reorders -/

/-- C5: for an authorized reorder whose requested ids are a permutation of
the list's (unique) item ids, the call succeeds and a subsequent read of
the list returns the items in exactly the requested order, with `order`
values 0 through n-1 in sequence. -/
theorem c5_full_permutation_reorder
    (store : List ListDoc) (actor lid : Nat) (list : ListDoc) (ids : List Nat)
    (hl : findList store lid = some list)
    (hacc : editAccess list actor = true)
    (hni : (list.items.map (fun it => it.itemId)).Nodup)
    (hperm : List.Perm ids (list.items.map (fun it => it.itemId))) :
    (reorderItems store actor lid (some ids)).status = 200 ∧
    ∃ l', findList (reorderItems store actor lid (some ids)).store lid = some l' ∧
      l'.items.map (fun it => it.itemId) = ids ∧
      l'.items.map (fun it => it.order) =
        (List.range ids.length).map (fun n : Nat => (n : Int)) := by
  have hnd : ids.Nodup := hperm.nodup_iff.mpr hni
  have hall : (ids.all (fun iid => list.items.any (fun it => it.itemId == iid))) = true := by
    rw [List.all_eq_true]
    intro iid hiid
    rw [List.any_eq_true]
    obtain ⟨it, hit, heq⟩ := List.mem_map.mp (hperm.subset hiid)
    exact ⟨it, hit, by simp [heq]⟩
  have hred : reorderItems store actor lid (some ids) =
      ⟨200, "", saveList store
        { list with items := (assignOrders list.items ids 0).mergeSort itemLe }⟩ := by
    simp [reorderItems, hl, hacc, hall]
  have hchar : assignOrders list.items ids 0 =
      list.items.map (fun it => if it.itemId ∈ ids then
        { it with order := ((posOf ids it.itemId : Nat) : Int) } else it) := by
    have h0 := assignOrders_eq_map ids list.items 0 hni hnd
    simp only [Nat.zero_add] at h0
    exact h0
  have hcov : ∀ it ∈ list.items, it.itemId ∈ ids :=
    fun it hit => hperm.mem_iff.mpr (List.mem_map_of_mem _ hit)
  have hcharF : assignOrders list.items ids 0 =
      list.items.map (fun it => { it with order := ((posOf ids it.itemId : Nat) : Int) }) := by
    rw [hchar]
    exact List.map_congr_left (fun it hit => if_pos (hcov it hit))
  have hpermAE : List.Perm (assignOrders list.items ids 0) (expectedItems list.items ids) := by
    have h1 : List.Perm (expectedItems list.items ids)
        ((list.items.map (fun it => it.itemId)).map (fun iid =>
          match list.items.find? (fun it2 => it2.itemId == iid) with
          | some it2 => { it2 with order := ((posOf ids iid : Nat) : Int) }
          | none => (⟨iid, "", false, ((posOf ids iid : Nat) : Int)⟩ : Item))) :=
      List.Perm.map _ hperm
    have h2 : (list.items.map (fun it => it.itemId)).map (fun iid =>
          match list.items.find? (fun it2 => it2.itemId == iid) with
          | some it2 => { it2 with order := ((posOf ids iid : Nat) : Int) }
          | none => (⟨iid, "", false, ((posOf ids iid : Nat) : Int)⟩ : Item)) =
        list.items.map (fun it => { it with order := ((posOf ids it.itemId : Nat) : Int) }) := by
      rw [List.map_map]
      apply List.map_congr_left
      intro it hit
      simp only [Function.comp]
      rw [find?_itemId_self list.items hni it hit]
    rw [h2] at h1
    rw [hcharF]
    exact h1.symm
  have horderE : (expectedItems list.items ids).map (fun it => it.order) =
      (List.range ids.length).map (fun n : Nat => (n : Int)) := by
    rw [expectedItems_map_order, map_posOf_self ids hnd]
  have hltE : (expectedItems list.items ids).Pairwise (fun a b => a.order < b.order) := by
    have hmapped : ((expectedItems list.items ids).map (fun it => it.order)).Pairwise
        (fun a b : Int => a < b) := by
      rw [horderE]
      exact List.Pairwise.map _ (fun a b h => by exact_mod_cast h)
        (List.pairwise_lt_range _)
    exact List.pairwise_map.mp hmapped
  have hpermSE : List.Perm ((assignOrders list.items ids 0).mergeSort itemLe)
      (expectedItems list.items ids) :=
    (List.mergeSort_perm _ _).trans hpermAE
  have hleS : ((assignOrders list.items ids 0).mergeSort itemLe).Pairwise
      (fun a b => a.order ≤ b.order) :=
    (List.sorted_mergeSort itemLe_trans itemLe_total _).imp
      (fun hab => by simpa [itemLe] using hab)
  have hnodupOrders : (((assignOrders list.items ids 0).mergeSort itemLe).map
      (fun it => it.order)).Nodup := by
    have hpm : List.Perm
        ((((assignOrders list.items ids 0).mergeSort itemLe)).map (fun it => it.order))
        ((expectedItems list.items ids).map (fun it => it.order)) :=
      List.Perm.map _ hpermSE
    rw [horderE] at hpm
    refine hpm.nodup_iff.mpr ?_
    exact (List.nodup_range _).map (fun a b h => by exact_mod_cast h)
  have hneS : ((assignOrders list.items ids 0).mergeSort itemLe).Pairwise
      (fun a b => a.order ≠ b.order) :=
    List.pairwise_map.mp hnodupOrders
  have hltS : ((assignOrders list.items ids 0).mergeSort itemLe).Pairwise
      (fun a b => a.order < b.order) :=
    (hleS.and hneS).imp (fun h => lt_of_le_of_ne h.1 h.2)
  have hfinal : (assignOrders list.items ids 0).mergeSort itemLe =
      expectedItems list.items ids :=
    perm_pairwise_lt_eq _ _ hpermSE hltS hltE
  refine ⟨by rw [hred], ?_⟩
  refine ⟨{ list with items := (assignOrders list.items ids 0).mergeSort itemLe }, ?_, ?_, ?_⟩
  · rw [hred]
    exact findList_saveList store list _ lid hl rfl
  · show ((assignOrders list.items ids 0).mergeSort itemLe).map _ = ids
    rw [hfinal]
    exact expectedItems_map_itemId list.items ids
  · show ((assignOrders list.items ids 0).mergeSort itemLe).map _ = _
    rw [hfinal]
    exact horderE

/-- Witness for C5: the owner reverses the three-item list; the read-back
items are exactly [12, 11, 10] with orders 0, 1, 2. -/
theorem c5_full_permutation_reorder_witness :
    (findList storeW 5 = some listW ∧
     editAccess listW 1 = true ∧
     (listW.items.map (fun it => it.itemId)).Nodup ∧
     List.Perm [12, 11, 10] (listW.items.map (fun it => it.itemId))) ∧
    ((reorderItems storeW 1 5 (some [12, 11, 10])).status = 200 ∧
     ∃ l', findList (reorderItems storeW 1 5 (some [12, 11, 10])).store 5 = some l' ∧
       l'.items.map (fun it => it.itemId) = [12, 11, 10] ∧
       l'.items.map (fun it => it.order) =
         (List.range ([12, 11, 10] : List Nat).length).map (fun n : Nat => (n : Int))) :=
  ⟨⟨by decide, by decide, by decide, by decide⟩,
    c5_full_permutation_reorder storeW 1 5 listW [12, 11, 10]
      (by decide) (by decide) (by decide) (by decide)⟩

/-- C4 counterexample: the original claim fails on the code.  The
pre-state — items C, D, E persisted with orders 2, 1, 2 — is reachable
through the item routes alone (add A, B, C at orders 0, 1, 2; delete A
and B; add D and E, which receive `order := length`, i.e. 1 and 2).  The
reorder request `[14]` (item E) is a nodup strict non-empty subset of the
item ids; the call succeeds and every unnamed item keeps its `order`
value, but the persisted read-back is `[E(0), D(1), C(2)]`: the unnamed
items C and D come back in the order D, C, flipping their prior relative
order C, D — refuting "every item not named … retains its prior relative
order among the unnamed items". -/
theorem c4_counterexample_unnamed_items_swap :
    (addItem (addItem (deleteItem (deleteItem (addItem (addItem (addItem
        [⟨5, "L", 1, [], [], false, false, 0⟩] 1 5 10 (some "A")).store
        1 5 11 (some "B")).store 1 5 12 (some "C")).store 1 5 10).store
        1 5 11).store 1 5 13 (some "D")).store 1 5 14 (some "E")).store =
      [⟨5, "L", 1, [],
        [⟨12, "C", false, 2⟩, ⟨13, "D", false, 1⟩, ⟨14, "E", false, 2⟩],
        false, false, 0⟩] ∧
    (([14] : List Nat) ≠ [] ∧ ([14] : List Nat).Nodup ∧
      (∀ iid ∈ ([14] : List Nat),
        iid ∈ ([⟨12, "C", false, 2⟩, ⟨13, "D", false, 1⟩,
          ⟨14, "E", false, 2⟩] : List Item).map (fun it => it.itemId)) ∧
      (∃ it ∈ ([⟨12, "C", false, 2⟩, ⟨13, "D", false, 1⟩,
          ⟨14, "E", false, 2⟩] : List Item), it.itemId ∉ ([14] : List Nat))) ∧
    (reorderItems [⟨5, "L", 1, [],
        [⟨12, "C", false, 2⟩, ⟨13, "D", false, 1⟩, ⟨14, "E", false, 2⟩],
        false, false, 0⟩] 1 5 (some [14])).status = 200 ∧
    (reorderItems [⟨5, "L", 1, [],
        [⟨12, "C", false, 2⟩, ⟨13, "D", false, 1⟩, ⟨14, "E", false, 2⟩],
        false, false, 0⟩] 1 5 (some [14])).store =
      [⟨5, "L", 1, [],
        [⟨14, "E", false, 0⟩, ⟨13, "D", false, 1⟩, ⟨12, "C", false, 2⟩],
        false, false, 0⟩] ∧
    ¬ ((([⟨14, "E", false, 0⟩, ⟨13, "D", false, 1⟩,
          ⟨12, "C", false, 2⟩] : List Item).filter
            (fun it => decide (it.itemId ∉ ([14] : List Nat)))).map (fun it => it.itemId) =
        (([⟨12, "C", false, 2⟩, ⟨13, "D", false, 1⟩,
          ⟨14, "E", false, 2⟩] : List Item).filter
            (fun it => decide (it.itemId ∉ ([14] : List Nat)))).map (fun it => it.itemId)) := by
  have hassign : assignOrders
      [⟨12, "C", false, 2⟩, ⟨13, "D", false, 1⟩, ⟨14, "E", false, 2⟩] [14] 0 =
      [⟨12, "C", false, 2⟩, ⟨13, "D", false, 1⟩, ⟨14, "E", false, 0⟩] := by decide
  have hle : (([⟨12, "C", false, 2⟩, ⟨13, "D", false, 1⟩,
      ⟨14, "E", false, 0⟩] : List Item).mergeSort itemLe).Pairwise
      (fun a b => a.order ≤ b.order) :=
    (List.sorted_mergeSort itemLe_trans itemLe_total _).imp
      (fun hab => by simpa [itemLe] using hab)
  have hpm : List.Perm
      ((([⟨12, "C", false, 2⟩, ⟨13, "D", false, 1⟩,
          ⟨14, "E", false, 0⟩] : List Item).mergeSort itemLe).map (fun it => it.order))
      (([⟨12, "C", false, 2⟩, ⟨13, "D", false, 1⟩,
          ⟨14, "E", false, 0⟩] : List Item).map (fun it => it.order)) :=
    List.Perm.map _ (List.mergeSort_perm _ _)
  have hnodup : ((([⟨12, "C", false, 2⟩, ⟨13, "D", false, 1⟩,
      ⟨14, "E", false, 0⟩] : List Item).mergeSort itemLe).map (fun it => it.order)).Nodup :=
    hpm.nodup_iff.mpr (by decide)
  have hms : ([⟨12, "C", false, 2⟩, ⟨13, "D", false, 1⟩,
      ⟨14, "E", false, 0⟩] : List Item).mergeSort itemLe =
      [⟨14, "E", false, 0⟩, ⟨13, "D", false, 1⟩, ⟨12, "C", false, 2⟩] :=
    perm_pairwise_lt_eq _ _
      ((List.mergeSort_perm _ _).trans (by decide))
      ((hle.and (List.pairwise_map.mp hnodup)).imp (fun h => lt_of_le_of_ne h.1 h.2))
      (by decide)
  refine ⟨by decide, ⟨by decide, by decide, by decide, by decide⟩, by decide, ?_, by decide⟩
  have hred : (reorderItems [⟨5, "L", 1, [],
      [⟨12, "C", false, 2⟩, ⟨13, "D", false, 1⟩, ⟨14, "E", false, 2⟩],
      false, false, 0⟩] 1 5 (some [14])).store =
      saveList [⟨5, "L", 1, [],
        [⟨12, "C", false, 2⟩, ⟨13, "D", false, 1⟩, ⟨14, "E", false, 2⟩],
        false, false, 0⟩]
        ⟨5, "L", 1, [],
          (assignOrders [⟨12, "C", false, 2⟩, ⟨13, "D", false, 1⟩,
            ⟨14, "E", false, 2⟩] [14] 0).mergeSort itemLe,
          false, false, 0⟩ := rfl
  rw [hred, hassign, hms]
  decide
